import Mathlib

/-!
Verification of the pppoeproxy tunnel core: a shallow embedding of the
Go sources (const.go, discovery.go, proxy.go, the session handler and
byte-order helpers) as executable Lean definitions, together with
theorems settling the specification claims.  Byte streams are modelled
as `List Nat` whose elements are byte values; Go's `uint64` arithmetic
is mirrored with explicit reductions modulo `2 ^ 64`.
-/

/- Constants from const.go. -/

def PPPoEDiscovery : Nat := 0x8863

def PPPoESession : Nat := 0x8864

def PacketTypePing : Nat := 0

def PacketTypePong : Nat := 1

def PacketTypeDiscovery : Nat := 2

def PacketTypeSession : Nat := 3

def TagEndOfList : Nat := 0x0000

def TagHostUniq : Nat := 0x0103

def PADI : Nat := 0x09

def PADO : Nat := 0x07

def PADR : Nat := 0x19

def PADS : Nat := 0x65

def PADT : Nat := 0xa7

/-- The varint length-encoding loop of `Client.WritePacket` (proxy.go):
while `length >= 0x80` it emits `byte(length) | 0x80` and shifts `length`
right by 7; the final byte is `byte(length)`. -/
def encodeLength (length : Nat) : List Nat :=
  if h : 0x80 ≤ length then
    ((length % 256) ||| 0x80) :: encodeLength (length >>> 7)
  else
    [length % 256]
termination_by length
decreasing_by
  rw [Nat.shiftRight_eq_div_pow]
  exact Nat.div_lt_self (by omega) (by norm_num)

/-- `Client.WritePacket` (proxy.go 1113-1142): the byte sequence written for
one tunnel frame, namely a big-endian `uint16` packet type, the varint
payload length, then the payload bytes. -/
def WritePacket (packetType : Nat) (data : List Nat) : List Nat :=
  ((packetType >>> 8) % 256) :: (packetType % 256) :: (encodeLength data.length ++ data)

/-- Error outcomes that terminate a connection's decode loop. -/
inductive DecErr where
  | eof
  | typeShort
  | varintShort
  | varintTooLarge
  | packetTooLarge
  | dataShort
  | skipTooLarge
deriving DecidableEq

/-- The varint-reading loop shared by `Proxy.handleClient` and
`Proxy.handleServerConnection` (proxy.go 1371-1398): each byte contributes
its low 7 bits shifted by the running shift; a clear continuation bit ends
the loop, and a set continuation bit with `shift > 63` is an error.
`length` accumulates in a Go `uint64`, modelled by reduction mod `2 ^ 64`. -/
def readVarintAux : List Nat → Nat → Nat → Except DecErr (Nat × List Nat)
  | [], _, _ => .error .varintShort
  | b :: s, length, shift =>
    if b &&& 0x80 = 0 then
      .ok ((length ||| ((b &&& 0x7f) <<< shift)) % 2 ^ 64, s)
    else if shift + 7 > 63 then
      .error .varintTooLarge
    else
      readVarintAux s ((length ||| ((b &&& 0x7f) <<< shift)) % 2 ^ 64) (shift + 7)

/-- Entry point of the varint-reading loop with zeroed accumulator and shift. -/
def readVarint (s : List Nat) : Except DecErr (Nat × List Nat) :=
  readVarintAux s 0 0

/- Arithmetic helper lemmas for the varint proofs. -/

lemma lor_shiftLeft_eq_add {acc : Nat} (g sh : Nat) (h : acc < 2 ^ sh) :
    acc ||| (g <<< sh) = acc + g * 2 ^ sh := by
  rw [Nat.shiftLeft_eq, mul_comm g (2 ^ sh), Nat.lor_comm, ← Nat.mul_add_lt_is_or h g]
  omega

lemma and_0x7f_eq_mod (b : Nat) : b &&& 0x7f = b % 128 := by
  have h : (0x7f : Nat) = 2 ^ 7 - 1 := by norm_num
  rw [h, Nat.and_pow_two_sub_one_eq_mod]

lemma and_0x80_eq_zero {b : Nat} (h : b < 128) : b &&& 0x80 = 0 := by
  have h7 : (0x80 : Nat) = 2 ^ 7 := by norm_num
  rw [h7, Nat.and_two_pow]
  have : b.testBit 7 = false := Nat.testBit_eq_false_of_lt (by norm_num at h ⊢; omega)
  simp [this]

lemma or_0x80_and_0x80 (x : Nat) : (x ||| 0x80) &&& 0x80 = 0x80 := by
  have ht : (x ||| 0x80).testBit 7 = true := by
    rw [Nat.testBit_or, (by decide : Nat.testBit 0x80 7 = true), Bool.or_true]
  have h7 : (0x80 : Nat) = 2 ^ 7 := by norm_num
  rw [h7, Nat.and_two_pow, ← h7, ht]
  norm_num

lemma or_0x80_and_0x7f (x : Nat) : (x ||| 0x80) &&& 0x7f = x % 128 := by
  rw [Nat.land_comm, Nat.and_or_distrib_left, Nat.land_comm 0x7f x, and_0x7f_eq_mod,
    (by decide : (0x7f : Nat) &&& 0x80 = 0), Nat.or_zero]

/-- Core round-trip property of the varint codec: feeding the encoder's
output to the decoding loop reproduces the value, for any accumulator and
shift state reachable without overflow. -/
lemma readVarintAux_encodeLength (M : Nat) : ∀ (sh acc : Nat) (rest : List Nat),
    acc < 2 ^ sh → M * 2 ^ sh < 2 ^ 63 → sh ≤ 63 →
    readVarintAux (encodeLength M ++ rest) acc sh = .ok (acc + M * 2 ^ sh, rest) := by
  induction M using Nat.strong_induction_on with
  | _ M ih =>
    intro sh acc rest hacc hM hsh
    rw [encodeLength]
    by_cases h : 0x80 ≤ M
    · rw [dif_pos h]
      have hpow : (2 : Nat) ^ (sh + 7) = 2 ^ sh * 128 := by
        rw [pow_add]; norm_num
      have hsh7 : sh + 7 < 63 := by
        have h2 : 2 ^ (sh + 7) ≤ M * 2 ^ sh := by
          rw [hpow]
          calc (2 : Nat) ^ sh * 128 = 128 * 2 ^ sh := by ring
            _ ≤ M * 2 ^ sh := mul_le_mul_right' (by omega) _
        have h3 : (2 : Nat) ^ (sh + 7) < 2 ^ 63 := lt_of_le_of_lt h2 hM
        have h4 : sh + 7 < 63 :=
          (Nat.pow_lt_pow_iff_right (by norm_num)).mp h3
        exact h4
      simp only [List.cons_append, List.append_eq, readVarintAux]
      rw [if_neg (by rw [or_0x80_and_0x80]; norm_num)]
      rw [if_neg (by omega)]
      rw [or_0x80_and_0x7f, Nat.mod_mod_of_dvd M (by norm_num : (128 : Nat) ∣ 256)]
      rw [lor_shiftLeft_eq_add (M % 128) sh hacc]
      have hlt : acc + M % 128 * 2 ^ sh < 2 ^ (sh + 7) := by
        have h1 : M % 128 * 2 ^ sh ≤ 127 * 2 ^ sh := mul_le_mul_right' (by omega) _
        rw [hpow]
        have h2 : (2 : Nat) ^ sh * 128 = 128 * 2 ^ sh := by ring
        omega
      have hlt64 : acc + M % 128 * 2 ^ sh < 2 ^ 64 := by
        have h1 : (2 : Nat) ^ (sh + 7) ≤ 2 ^ 64 :=
          Nat.pow_le_pow_right (by norm_num) (by omega)
        omega
      rw [Nat.mod_eq_of_lt hlt64]
      have hM7 : M >>> 7 = M / 128 := by
        rw [Nat.shiftRight_eq_div_pow]
      rw [hM7]
      have hdiv : M / 128 < M := Nat.div_lt_self (by omega) (by norm_num)
      have hM' : M / 128 * 2 ^ (sh + 7) < 2 ^ 63 := by
        calc M / 128 * 2 ^ (sh + 7) = M / 128 * (2 ^ sh * 128) := by rw [hpow]
          _ = M / 128 * 128 * 2 ^ sh := by ring
          _ ≤ M * 2 ^ sh := mul_le_mul_right' (Nat.div_mul_le_self M 128) _
          _ < 2 ^ 63 := hM
      rw [ih (M / 128) hdiv (sh + 7) (acc + M % 128 * 2 ^ sh) rest hlt hM' (by omega)]
      have final : acc + M % 128 * 2 ^ sh + M / 128 * 2 ^ (sh + 7) = acc + M * 2 ^ sh := by
        rw [hpow]
        calc acc + M % 128 * 2 ^ sh + M / 128 * (2 ^ sh * 128)
            = acc + (M % 128 + M / 128 * 128) * 2 ^ sh := by ring
          _ = acc + M * 2 ^ sh := by rw [Nat.mod_add_div' M 128]
      rw [final]
    · rw [dif_neg h]
      have hMlt : M < 128 := by norm_num at h; omega
      have hb : M % 256 = M := Nat.mod_eq_of_lt (by omega)
      simp only [List.cons_append, List.nil_append, List.append_eq, readVarintAux, hb]
      rw [if_pos (and_0x80_eq_zero hMlt), and_0x7f_eq_mod, Nat.mod_eq_of_lt hMlt]
      have hacc' : acc ||| M <<< sh = acc + M * 2 ^ sh := lor_shiftLeft_eq_add M sh hacc
      have hlt64 : acc + M * 2 ^ sh < 2 ^ 64 := by
        have h1 : (2 : Nat) ^ sh ≤ 2 ^ 63 := Nat.pow_le_pow_right (by norm_num) hsh
        have h2 : (2 : Nat) ^ 63 + 2 ^ 63 = 2 ^ 64 := by norm_num
        omega
      rw [hacc', Nat.mod_eq_of_lt hlt64]

/-- If ten successive bytes all carry the continuation bit, the varint
reading loop hits the shift bound and fails, from any accumulator state
whose shift is far enough along that the bound triggers within those
bytes. -/
lemma readVarintAux_continuation_err :
    ∀ (k : Nat) (s : List Nat) (acc sh : Nat), 1 ≤ k → 63 < sh + 7 * k →
    k ≤ s.length → (∀ i, i < k → s.getD i 0 &&& 0x80 ≠ 0) →
    readVarintAux s acc sh = .error .varintTooLarge := by
  intro k
  induction k with
  | zero => intro s acc sh h1 _ _ _; omega
  | succ k ihk =>
    intro s acc sh _ hsh hlen hc
    match s with
    | [] => simp at hlen
    | b :: s' =>
      have hb : b &&& 0x80 ≠ 0 := by
        have h0 := hc 0 (by omega)
        simpa using h0
      simp only [readVarintAux]
      rw [if_neg hb]
      by_cases hshift : sh + 7 > 63
      · rw [if_pos hshift]
      · rw [if_neg hshift]
        apply ihk
        · omega
        · omega
        · simpa using hlen
        · intro i hi
          have hi1 := hc (i + 1) (by omega)
          simpa using hi1

/-- Claim C3: encoding a length with the varint writer of
`Client.WritePacket` and decoding it with the reader loop of
`Proxy.handleClient` reproduces the length exactly, for every length a Go
`int` can hold (all of 0, 1, 127, 128, 16383, 16384 and `2 ^ 32 - 1` are
below `2 ^ 63`); and a byte stream whose continuation bits never
terminate within 10 bytes is rejected with the shift-bound error instead
of producing a value. -/
theorem c3_varint_roundtrip_and_overflow (L : Nat) (rest s : List Nat)
    (hL : L < 2 ^ 63) (hs : 10 ≤ s.length)
    (hc : ∀ i, i < 10 → s.getD i 0 &&& 0x80 ≠ 0) :
    readVarint (encodeLength L ++ rest) = .ok (L, rest) ∧
    readVarint s = .error .varintTooLarge := by
  constructor
  · have h := readVarintAux_encodeLength L 0 0 rest (by norm_num) (by simpa) (by norm_num)
    simpa [readVarint] using h
  · exact readVarintAux_continuation_err 10 s 0 0 (by norm_num) (by norm_num) hs hc

/-- Witness for C3 at length `2 ^ 32 - 1` and a ten-byte all-continuation
stream. -/
theorem c3_witness :
    readVarint (encodeLength (2 ^ 32 - 1) ++ []) = .ok (2 ^ 32 - 1, []) ∧
    readVarint (List.replicate 10 0x80) = .error .varintTooLarge :=
  c3_varint_roundtrip_and_overflow (2 ^ 32 - 1) [] (List.replicate 10 0x80)
    (by norm_num) (by simp) (by decide)

/-- The effect of one decoded tunnel frame on the receiving proxy. -/
inductive TunnelAction where
  | sendPong
  | logPong
  | injectDiscovery (payload : List Nat)
  | injectSession (payload : List Nat)
  | skip (n : Nat)
deriving DecidableEq

/-- Result of one successful decode-loop iteration: the action taken, the
bytes written back on the connection, the remaining input stream, and the
receive-buffer size after any growth. -/
structure StepOut where
  act : TunnelAction
  response : List Nat
  rest : List Nat
  bufSize : Nat
deriving DecidableEq

/-- Dispatch on the decoded packet type and length, mirroring the switch
of `Proxy.handleClient` (proxy.go 1400-1456): Ping answers with a Pong
frame on the same connection and consumes no payload bytes; Pong is
logged only; Discovery and Session check the length against the buffer,
growing it up to the 65536-byte ceiling, then read the full payload and
inject it; an unrecognized type skips its declared payload, up to the
1048576-byte discard limit. -/
def dispatchPacket (bufSize packetType length : Nat) (s2 : List Nat) : Except DecErr StepOut :=
  if packetType = PacketTypePing then
    .ok ⟨.sendPong, WritePacket PacketTypePong [], s2, bufSize⟩
  else if packetType = PacketTypePong then
    .ok ⟨.logPong, [], s2, bufSize⟩
  else if packetType = PacketTypeDiscovery ∨ packetType = PacketTypeSession then
    if length > bufSize ∧ length > 65536 then .error .packetTooLarge
    else if length ≤ s2.length then
      if packetType = PacketTypeDiscovery then
        .ok ⟨.injectDiscovery (s2.take length), [], s2.drop length,
          if length > bufSize then length else bufSize⟩
      else
        .ok ⟨.injectSession (s2.take length), [], s2.drop length,
          if length > bufSize then length else bufSize⟩
    else .error .dataShort
  else
    if length = 0 then .ok ⟨.skip 0, [], s2, bufSize⟩
    else if length > 1048576 then .error .skipTooLarge
    else if length ≤ s2.length then .ok ⟨.skip length, [], s2.drop length, bufSize⟩
    else .error .dataShort

/-- One iteration of the `Proxy.handleClient` decode loop (proxy.go
1359-1457; `Proxy.handleServerConnection`, proxy.go 1483-1599, is
identical in these respects): read a big-endian `uint16` packet type (a
closed or truncated stream terminates the loop), read the varint length,
then dispatch. -/
def handleClientStep (bufSize : Nat) (s : List Nat) : Except DecErr StepOut :=
  match s with
  | [] => .error .eof
  | [_] => .error .typeShort
  | b0 :: b1 :: s1 =>
    match readVarint s1 with
    | .error e => .error e
    | .ok (length, s2) => dispatchPacket bufSize (b0 * 256 + b1) length s2

lemma handleClientStep_cons {s1 : List Nat} {length : Nat} {s2 : List Nat}
    (bufSize b0 b1 : Nat) (h : readVarint s1 = .ok (length, s2)) :
    handleClientStep bufSize (b0 :: b1 :: s1) =
      dispatchPacket bufSize (b0 * 256 + b1) length s2 := by
  simp only [handleClientStep, h]

/-- Decoding the `WritePacket` encoding of a Discovery tunnel frame of at
most 65536 payload bytes consumes exactly the frame, dispatches its full
payload, and leaves the rest of the stream untouched. -/
lemma handleClientStep_discovery (bufSize : Nat) (P rest : List Nat)
    (hP : P.length ≤ 65536) :
    handleClientStep bufSize (WritePacket PacketTypeDiscovery P ++ rest) =
      .ok ⟨.injectDiscovery P, [], rest,
        if P.length > bufSize then P.length else bufSize⟩ := by
  have henc : readVarint (encodeLength P.length ++ (P ++ rest)) = .ok (P.length, P ++ rest) := by
    have h := readVarintAux_encodeLength P.length 0 0 (P ++ rest) (by norm_num)
      (by simp; omega) (by norm_num)
    simpa [readVarint] using h
  have hlen : P.length ≤ (P ++ rest).length := by simp
  have hW : WritePacket PacketTypeDiscovery P ++ rest =
      0 :: 2 :: (encodeLength P.length ++ (P ++ rest)) := by
    simp [WritePacket, PacketTypeDiscovery]
  rw [hW, handleClientStep_cons bufSize 0 2 henc]
  show dispatchPacket bufSize 2 P.length (P ++ rest) = _
  have h1 : ¬(P.length > bufSize ∧ P.length > 65536) := by omega
  simp [dispatchPacket, PacketTypePing, PacketTypePong, PacketTypeDiscovery,
    PacketTypeSession, h1, hlen, List.take_left, List.drop_left]

/-- Decoding the `WritePacket` encoding of a Session tunnel frame of at
most 65536 payload bytes consumes exactly the frame, dispatches its full
payload, and leaves the rest of the stream untouched. -/
lemma handleClientStep_session (bufSize : Nat) (P rest : List Nat)
    (hP : P.length ≤ 65536) :
    handleClientStep bufSize (WritePacket PacketTypeSession P ++ rest) =
      .ok ⟨.injectSession P, [], rest,
        if P.length > bufSize then P.length else bufSize⟩ := by
  have henc : readVarint (encodeLength P.length ++ (P ++ rest)) = .ok (P.length, P ++ rest) := by
    have h := readVarintAux_encodeLength P.length 0 0 (P ++ rest) (by norm_num)
      (by simp; omega) (by norm_num)
    simpa [readVarint] using h
  have hlen : P.length ≤ (P ++ rest).length := by simp
  have hW : WritePacket PacketTypeSession P ++ rest =
      0 :: 3 :: (encodeLength P.length ++ (P ++ rest)) := by
    simp [WritePacket, PacketTypeSession]
  rw [hW, handleClientStep_cons bufSize 0 3 henc]
  show dispatchPacket bufSize 3 P.length (P ++ rest) = _
  have h1 : ¬(P.length > bufSize ∧ P.length > 65536) := by omega
  simp [dispatchPacket, PacketTypePing, PacketTypePong, PacketTypeDiscovery,
    PacketTypeSession, h1, hlen, List.take_left, List.drop_left]

/-- Decoding the `WritePacket` encoding of a zero-payload Ping or Pong
frame consumes exactly the frame; a Ping is answered with a Pong frame in
the same step. -/
lemma handleClientStep_pingpong (bufSize : Nat) (rest : List Nat) :
    handleClientStep bufSize (WritePacket PacketTypePing [] ++ rest) =
      .ok ⟨.sendPong, WritePacket PacketTypePong [], rest, bufSize⟩ ∧
    handleClientStep bufSize (WritePacket PacketTypePong [] ++ rest) =
      .ok ⟨.logPong, [], rest, bufSize⟩ := by
  have hrv : readVarint (encodeLength 0 ++ rest) = .ok (0, rest) := by
    have h := readVarintAux_encodeLength 0 0 0 rest (by norm_num) (by norm_num) (by norm_num)
    simpa [readVarint] using h
  constructor
  · have hW : WritePacket PacketTypePing [] ++ rest =
        0 :: 0 :: (encodeLength 0 ++ rest) := by
      simp [WritePacket, PacketTypePing]
    rw [hW, handleClientStep_cons bufSize 0 0 hrv]
    simp [dispatchPacket, PacketTypePing]
  · have hW : WritePacket PacketTypePong [] ++ rest =
        0 :: 1 :: (encodeLength 0 ++ rest) := by
      simp [WritePacket, PacketTypePong]
    rw [hW, handleClientStep_cons bufSize 0 1 hrv]
    simp [dispatchPacket, PacketTypePing, PacketTypePong]

/-- Claim C2 (amended): writing a tunnel frame with `Client.WritePacket`
and decoding it with the connection decode loop yields exactly the pair
of type and payload with no leftover bytes, for Discovery and Session
frames with payloads of up to 65536 bytes, and for Ping and Pong frames
with the empty payload the code always gives them; the decoder does not
consume payload bytes for Ping or Pong, so the round trip as originally
stated fails for a Ping frame carrying a nonempty payload. -/
theorem c2_roundtrip (bufSize : Nat) (P rest : List Nat) (hP : P.length ≤ 65536) :
    handleClientStep bufSize (WritePacket PacketTypeDiscovery P ++ rest) =
      .ok ⟨.injectDiscovery P, [], rest,
        if P.length > bufSize then P.length else bufSize⟩ ∧
    handleClientStep bufSize (WritePacket PacketTypeSession P ++ rest) =
      .ok ⟨.injectSession P, [], rest,
        if P.length > bufSize then P.length else bufSize⟩ ∧
    handleClientStep bufSize (WritePacket PacketTypePing [] ++ rest) =
      .ok ⟨.sendPong, WritePacket PacketTypePong [], rest, bufSize⟩ ∧
    handleClientStep bufSize (WritePacket PacketTypePong [] ++ rest) =
      .ok ⟨.logPong, [], rest, bufSize⟩ :=
  ⟨handleClientStep_discovery bufSize P rest hP,
   handleClientStep_session bufSize P rest hP,
   (handleClientStep_pingpong bufSize rest).1,
   (handleClientStep_pingpong bufSize rest).2⟩

/-- Witness for C2 (amended) at a one-byte Discovery payload. -/
theorem c2_witness :
    handleClientStep 4096 (WritePacket PacketTypeDiscovery [170] ++ [9]) =
      .ok ⟨.injectDiscovery [170], [], [9], 4096⟩ := by
  have h := (c2_roundtrip 4096 [170] [9] (by norm_num)).1
  simpa using h

/-- Counterexample to C2 as stated: a Ping frame (type 0) written with the
one-byte payload `[0]` decodes to a step that dispatches no payload and
leaves the payload byte in the stream, where it will be misread as the
start of a following frame; the decoded pair is therefore not the written
pair `(Ping, [0])`. -/
theorem c2_counterexample :
    handleClientStep 4096 (WritePacket PacketTypePing [0] ++ []) =
      .ok ⟨.sendPong, WritePacket PacketTypePong [], [0], 4096⟩ ∧
    ([0] : List Nat) ≠ [] := by
  constructor
  · have hrv : readVarint (encodeLength 1 ++ [0]) = .ok (1, [0]) := by
      have h := readVarintAux_encodeLength 1 0 0 [0] (by norm_num) (by norm_num) (by norm_num)
      simpa [readVarint] using h
    have hW : WritePacket PacketTypePing [0] ++ [] =
        0 :: 0 :: (encodeLength 1 ++ [0]) := by
      simp [WritePacket, PacketTypePing]
    rw [hW, handleClientStep_cons 4096 0 0 hrv]
    simp [dispatchPacket, PacketTypePing]
  · simp

/-- Any successful dispatch keeps the buffer within the 65536-byte ceiling
and dispatches injected payloads of exactly the decoded length. -/
lemma dispatchPacket_ok_facts (bufSize t length : Nat) (s2 : List Nat)
    (hbuf : bufSize ≤ 65536) :
    ∀ out, dispatchPacket bufSize t length s2 = .ok out →
      out.bufSize ≤ 65536 ∧
      ∀ p, (out.act = .injectDiscovery p ∨ out.act = .injectSession p) →
        p.length = length := by
  intro out hout
  unfold dispatchPacket at hout
  split_ifs at hout with h1 h2 h3 h4 h5 h6 h7 h8 h9 <;>
    simp only [Except.ok.injEq] at hout <;> subst hout <;>
    constructor <;>
    simp_all [List.length_take]

/-- Claim C9: with the receive buffer within its 65536-byte ceiling (it
starts at 4096 and only grows to checked lengths), a Discovery or Session
frame length above 65536 terminates the connection before any payload is
read; a Discovery or Session length above the buffer but within the
ceiling grows the buffer to exactly that length with the full payload
read and injected; an unrecognized type
discards up to 1048576 declared payload bytes without interpretation and
a larger length terminates the connection; and every dispatched payload
has exactly the decoded length, so no payload is silently truncated. -/
theorem c9_buffer_limits (bufSize b0 b1 length : Nat) (s1 s2 : List Nat)
    (hv : readVarint s1 = .ok (length, s2)) (hbuf : bufSize ≤ 65536) :
    (b0 * 256 + b1 = PacketTypeDiscovery ∨ b0 * 256 + b1 = PacketTypeSession →
      65536 < length →
      handleClientStep bufSize (b0 :: b1 :: s1) = .error .packetTooLarge) ∧
    (b0 * 256 + b1 = PacketTypeDiscovery → bufSize < length → length ≤ 65536 →
      length ≤ s2.length →
      handleClientStep bufSize (b0 :: b1 :: s1) =
        .ok ⟨.injectDiscovery (s2.take length), [], s2.drop length, length⟩) ∧
    (b0 * 256 + b1 = PacketTypeSession → bufSize < length → length ≤ 65536 →
      length ≤ s2.length →
      handleClientStep bufSize (b0 :: b1 :: s1) =
        .ok ⟨.injectSession (s2.take length), [], s2.drop length, length⟩) ∧
    (b0 * 256 + b1 ≠ PacketTypePing → b0 * 256 + b1 ≠ PacketTypePong →
     b0 * 256 + b1 ≠ PacketTypeDiscovery → b0 * 256 + b1 ≠ PacketTypeSession →
      (0 < length → length ≤ 1048576 → length ≤ s2.length →
        handleClientStep bufSize (b0 :: b1 :: s1) =
          .ok ⟨.skip length, [], s2.drop length, bufSize⟩) ∧
      (1048576 < length →
        handleClientStep bufSize (b0 :: b1 :: s1) = .error .skipTooLarge)) ∧
    (∀ out p, handleClientStep bufSize (b0 :: b1 :: s1) = .ok out →
      (out.act = .injectDiscovery p ∨ out.act = .injectSession p) →
      p.length = length) ∧
    (∀ out, handleClientStep bufSize (b0 :: b1 :: s1) = .ok out →
      out.bufSize ≤ 65536) := by
  rw [handleClientStep_cons bufSize b0 b1 hv]
  refine ⟨?_, ?_, ?_, ?_, ?_, ?_⟩
  · intro ht hlen
    have h2 : length > bufSize ∧ length > 65536 := by omega
    rcases ht with ht | ht <;>
      simp [dispatchPacket, ht, PacketTypePing, PacketTypePong, PacketTypeDiscovery,
        PacketTypeSession, h2]
  · intro ht hgt hle hs2
    have h2 : ¬(length > bufSize ∧ length > 65536) := by omega
    simp [dispatchPacket, ht, PacketTypePing, PacketTypePong, PacketTypeDiscovery,
      PacketTypeSession, h2, hs2, if_pos hgt]
  · intro ht hgt hle hs2
    have h2 : ¬(length > bufSize ∧ length > 65536) := by omega
    simp [dispatchPacket, ht, PacketTypePing, PacketTypePong, PacketTypeDiscovery,
      PacketTypeSession, h2, hs2, if_pos hgt]
  · intro hp0 hp1 hp2 hp3
    have k0 : b0 * 256 + b1 ≠ 0 := by simpa [PacketTypePing] using hp0
    have k1 : b0 * 256 + b1 ≠ 1 := by simpa [PacketTypePong] using hp1
    have k2 : b0 * 256 + b1 ≠ 2 := by simpa [PacketTypeDiscovery] using hp2
    have k3 : b0 * 256 + b1 ≠ 3 := by simpa [PacketTypeSession] using hp3
    constructor
    · intro hpos hle hs2
      have hne : length ≠ 0 := by omega
      have h1048 : ¬(length > 1048576) := by omega
      simp [dispatchPacket, PacketTypePing, PacketTypePong, PacketTypeDiscovery,
        PacketTypeSession, k0, k1, k2, k3, hne, h1048, hs2]
    · intro hgt
      have hne : length ≠ 0 := by omega
      simp [dispatchPacket, PacketTypePing, PacketTypePong, PacketTypeDiscovery,
        PacketTypeSession, k0, k1, k2, k3, hne, hgt]
  · intro out p hout hact
    exact (dispatchPacket_ok_facts bufSize (b0 * 256 + b1) length s2 hbuf out hout).2 p hact
  · intro out hout
    exact (dispatchPacket_ok_facts bufSize (b0 * 256 + b1) length s2 hbuf out hout).1

/-- Witness for C9: a Discovery frame declaring 70000 payload bytes
(varint bytes 240, 162, 4) terminates the connection. -/
theorem c9_witness :
    handleClientStep 4096 (0 :: 2 :: [240, 162, 4]) = .error .packetTooLarge :=
  (c9_buffer_limits 4096 0 2 70000 [240, 162, 4] [] rfl (by norm_num)).1
    (Or.inl rfl) (by norm_num)

/-- A registered Link: a TCP connection wrapped with its remote address
key (proxy.go 1092-1105).  `failing` models a connection whose writes
error; `outbox` records the bytes successfully written to it. -/
structure Link where
  remoteAddr : List Char
  failing : Bool
  outbox : List Nat
deriving DecidableEq

/-- `Client.WritePacket` on a Link: on success the encoded tunnel frame
is appended to the link's stream; on a failing connection the write
errors and the caller merely logs (proxy.go 1113-1142). -/
def writePacketTo (l : Link) (packetType : Nat) (data : List Nat) : Link :=
  if l.failing then l else { l with outbox := l.outbox ++ WritePacket packetType data }

/-- Server-mode fan-out of `Proxy.handleDiscoveryPacket` (proxy.go
1602-1637): if the proxy is closed nothing is sent; otherwise the frame
is written with `WritePacket` to every registered client, and an error on
one client is only logged, leaving delivery to the others unaffected. -/
def handleDiscoveryPacket (closed : Bool) (clients : List Link) (packet : List Nat) :
    List Link :=
  if closed then clients
  else if clients.length = 0 then clients
  else clients.map (fun l => writePacketTo l PacketTypeDiscovery packet)

/-- Server-mode fan-out of `Proxy.handleSessionPacket` (proxy.go
1640-1675), identical to the Discovery case with the Session type. -/
def handleSessionPacket (closed : Bool) (clients : List Link) (packet : List Nat) :
    List Link :=
  if closed then clients
  else if clients.length = 0 then clients
  else clients.map (fun l => writePacketTo l PacketTypeSession packet)

/-- The client-mode keepalive period in seconds, from
`time.NewTicker(60 * time.Second)` in `NewProxy` (proxy.go 1185). -/
def pingIntervalSeconds : Nat := 60

/-- `Proxy.sendPing` (proxy.go 1245-1265): nothing is sent when the proxy
is closed or no upstream connection exists; otherwise a Ping tunnel frame
with empty payload is written to the upstream link. -/
def sendPing (closed : Bool) (server : Option Link) : Option Link :=
  if closed then server
  else
    match server with
    | none => none
    | some l => some (writePacketTo l PacketTypePing [])

/-- Client-mode reconnection state: the `closed` flag and the pending
reconnect timer, holding the absolute time at which it will fire. -/
structure ReconnState where
  closed : Bool
  timer : Option Nat
deriving DecidableEq

/-- `Proxy.scheduleReconnect` (proxy.go 1268-1293) as a discrete-event
model: a no-op once closed, otherwise it (re)arms the timer to fire 5
seconds from now (`time.AfterFunc(5*time.Second, ...)`). -/
def scheduleReconnect (now : Nat) (st : ReconnState) : ReconnState :=
  if st.closed then st else { st with timer := some (now + 5) }

/-- The reconnect timer callback (proxy.go 1279-1292), fired at the
timer's scheduled time: it returns immediately when closed; otherwise it
attempts `connectToServer` (the returned Bool records that an attempt was
made) and on failure schedules the next attempt 5 seconds later. -/
def fireReconnectTimer (connectOk : Bool) (st : ReconnState) : ReconnState × Bool :=
  match st.timer with
  | none => (st, false)
  | some t =>
    if st.closed then ({ st with timer := none }, false)
    else if connectOk then ({ st with timer := none }, true)
    else (scheduleReconnect t { st with timer := none }, true)

/-- The deferred block of `Proxy.handleServerConnection` (proxy.go
1484-1498): when the decode loop ends for any reason and the proxy is not
closed, a reconnect is scheduled. -/
def afterDisconnect (now : Nat) (st : ReconnState) : ReconnState :=
  if st.closed then st else scheduleReconnect now st

/-- Iterated firing of the reconnect timer with every connection attempt
failing. -/
def repeatFailures : Nat → ReconnState → ReconnState
  | 0, st => st
  | n + 1, st => repeatFailures n (fireReconnectTimer false st).1

/-- Go `strings.Split` with a single-character separator, as used by
`Proxy.isClientAllowed`: the first component is the run before the first
separator, the second the list of remaining fields. -/
def splitAux (c : Char) : List Char → List Char × List (List Char)
  | [] => ([], [])
  | x :: s =>
    if x = c then ([], (splitAux c s).1 :: (splitAux c s).2)
    else (x :: (splitAux c s).1, (splitAux c s).2)

/-- `Proxy.isClientAllowed` (proxy.go 1340-1347): split the remote IP
string on `:`, keep the part before the first colon, and compare it for
string equality with the configured allowed IP. -/
def isClientAllowed (allowedIP clientIP : List Char) : Bool :=
  (splitAux ':' clientIP).1 == allowedIP

/-- The server's registry of connected clients, keyed by remote address
(proxy.go 1154). -/
structure ServerState where
  clients : List (List Char)
deriving DecidableEq

/-- The per-connection body of `Proxy.acceptClients` (proxy.go
1309-1337): the accepted connection's source IP (already free of the port,
`conn.RemoteAddr().(*net.TCPAddr).IP.String()`) is checked with
`isClientAllowed`; on a match the client is registered under its remote
address and its `handleClient` decode loop is started (the returned Bool);
on a mismatch the connection is closed at once, before any application
data is read and without touching the registry. -/
def acceptClient (allowedIP : List Char) (st : ServerState)
    (clientIP remoteAddr : List Char) : ServerState × Bool :=
  if isClientAllowed allowedIP clientIP then (⟨remoteAddr :: st.clients⟩, true)
  else (st, false)

/-- `DiscoveryHandler.handlePacket` (discovery.go 89-122) restricted to
its forwarding decision: it reads the PPPoE header only through the
14-byte Ethernet offset, so it requires at least 20 bytes (the caller's
guarantee); a version-type byte other than 0x11 drops the frame, anything
else is handed to the forwarding callback unchanged. -/
def handlePacket (pkt : List Nat) (h : 20 ≤ pkt.length) : Option (List Nat) :=
  if pkt.get ⟨14, by omega⟩ ≠ 0x11 then none
  else some pkt

/-- The receive-loop guard of `DiscoveryHandler.processPackets`
(discovery.go 67-86): frames shorter than 20 bytes are dropped before any
PPPoE field access; longer frames go to `handlePacket`, whose header
reads are in bounds by construction. -/
def processFrame (pkt : List Nat) : Option (List Nat) :=
  if h : pkt.length < 20 then none
  else handlePacket pkt (by omega)

/-- Modelled from the spec: the TLV scan of the Discovery Tag Rewriter
(`RewriteHostUniq`), which is referenced by TODO.md, the README and the
`TagHostUniq` constant but whose body is not among the provided sources.
Following spec sections 3 and 4.2, tags are read sequentially from offset
20 as 16-bit big-endian type and length followed by the value bytes;
`EndOfList` terminates the scan, a tag whose declared length runs past
the frame end stops the scan, and the first `HostUniq` tag is returned as
the offset and length of its value. -/
def findHostUniqAux (pkt : List Nat) (off : Nat) : Option (Nat × Nat) :=
  if h4 : off + 4 ≤ pkt.length then
    if pkt.getD off 0 * 256 + pkt.getD (off + 1) 0 = TagEndOfList then none
    else if hv : off + 4 + (pkt.getD (off + 2) 0 * 256 + pkt.getD (off + 3) 0) ≤ pkt.length then
      if pkt.getD off 0 * 256 + pkt.getD (off + 1) 0 = TagHostUniq then
        some (off + 4, pkt.getD (off + 2) 0 * 256 + pkt.getD (off + 3) 0)
      else
        findHostUniqAux pkt (off + 4 + (pkt.getD (off + 2) 0 * 256 + pkt.getD (off + 3) 0))
    else none
  else none
termination_by pkt.length - off

/-- Modelled from the spec: the scan entry point at TLV offset 20. -/
def findHostUniq (pkt : List Nat) : Option (Nat × Nat) :=
  findHostUniqAux pkt 20

/-- XOR the fixed constant 0x42 into the `len` bytes starting `start`
positions into the list, leaving every other byte unchanged: the in-place
value rewrite of the Tag Rewriter in functional form. -/
def xorRangeAux : List Nat → Nat → Nat → List Nat
  | [], _, _ => []
  | b :: s, start + 1, len => b :: xorRangeAux s start len
  | b :: s, 0, len + 1 => (b ^^^ 0x42) :: xorRangeAux s 0 len
  | b :: s, 0, 0 => b :: s

/-- Modelled from the spec: `RewriteHostUniq` - scan for the first
HostUniq tag from offset 20 and XOR every byte of its value with 0x42,
returning immediately; when the tag is absent the frame is unchanged. -/
def rewriteHostUniq (pkt : List Nat) : List Nat :=
  match findHostUniq pkt with
  | some (start, len) => xorRangeAux pkt start len
  | none => pkt

/-- Claim C7: the client keepalive ticker fires every 60 seconds and each
firing writes a Ping tunnel frame (type 0, zero-length payload - the
bytes 0,0,0) to the live upstream link; and a decode loop reading a Ping
frame writes back a Pong frame (type 1, zero-length payload) on the same
connection within the same processing step, leaving the rest of the
stream for the next iteration. -/
theorem c7_keepalive (l : Link) (bufSize : Nat) (rest : List Nat)
    (hl : l.failing = false) :
    pingIntervalSeconds = 60 ∧
    WritePacket PacketTypePing [] = [0, 0, 0] ∧
    sendPing false (some l) =
      some { l with outbox := l.outbox ++ WritePacket PacketTypePing [] } ∧
    handleClientStep bufSize (WritePacket PacketTypePing [] ++ rest) =
      .ok ⟨.sendPong, WritePacket PacketTypePong [], rest, bufSize⟩ ∧
    WritePacket PacketTypePong [] = [0, 1, 0] := by
  refine ⟨rfl, ?_, ?_, (handleClientStep_pingpong bufSize rest).1, ?_⟩
  · simp [WritePacket, PacketTypePing, encodeLength]
  · simp [sendPing, writePacketTo, hl]
  · simp [WritePacket, PacketTypePong, encodeLength]

/-- Witness for C7 on a concrete live link and an empty remaining
stream. -/
theorem c7_witness :
    sendPing false (some ⟨['a'], false, []⟩) =
      some ⟨['a'], false, WritePacket PacketTypePing []⟩ ∧
    handleClientStep 4096 (WritePacket PacketTypePing [] ++ []) =
      .ok ⟨.sendPong, WritePacket PacketTypePong [], [], 4096⟩ := by
  have h := c7_keepalive ⟨['a'], false, []⟩ 4096 [] rfl
  exact ⟨by simpa using h.2.2.1, h.2.2.2.1⟩

lemma handleDiscoveryPacket_length (closed : Bool) (clients : List Link)
    (packet : List Nat) :
    (handleDiscoveryPacket closed clients packet).length = clients.length := by
  unfold handleDiscoveryPacket
  split_ifs <;> simp

lemma handleSessionPacket_length (closed : Bool) (clients : List Link)
    (packet : List Nat) :
    (handleSessionPacket closed clients packet).length = clients.length := by
  unfold handleSessionPacket
  split_ifs <;> simp

/-- Claim C5: with the proxy open, a captured Discovery (or Session)
frame is encoded and written exactly once to every registered link - each
non-failing link's stream is extended by exactly one tunnel frame of the
matching type with the captured frame as payload, a failing link is
simply left as is, and this holds for each link independently of which
other links fail. -/
theorem c5_fanout (clients : List Link) (packet : List Nat) (i : Nat)
    (hi : i < clients.length) :
    (handleDiscoveryPacket false clients packet).length = clients.length ∧
    (handleSessionPacket false clients packet).length = clients.length ∧
    ((clients.get ⟨i, hi⟩).failing = false →
      (handleDiscoveryPacket false clients packet).get
          ⟨i, by rw [handleDiscoveryPacket_length]; exact hi⟩ =
        { clients.get ⟨i, hi⟩ with outbox :=
            (clients.get ⟨i, hi⟩).outbox ++ WritePacket PacketTypeDiscovery packet } ∧
      (handleSessionPacket false clients packet).get
          ⟨i, by rw [handleSessionPacket_length]; exact hi⟩ =
        { clients.get ⟨i, hi⟩ with outbox :=
            (clients.get ⟨i, hi⟩).outbox ++ WritePacket PacketTypeSession packet }) ∧
    ((clients.get ⟨i, hi⟩).failing = true →
      (handleDiscoveryPacket false clients packet).get
          ⟨i, by rw [handleDiscoveryPacket_length]; exact hi⟩ = clients.get ⟨i, hi⟩ ∧
      (handleSessionPacket false clients packet).get
          ⟨i, by rw [handleSessionPacket_length]; exact hi⟩ = clients.get ⟨i, hi⟩) := by
  have hne : clients.length ≠ 0 := by omega
  refine ⟨handleDiscoveryPacket_length false clients packet,
    handleSessionPacket_length false clients packet, ?_, ?_⟩
  · intro hfail
    simp only [List.get_eq_getElem] at hfail
    constructor <;>
      simp [handleDiscoveryPacket, handleSessionPacket, hne, writePacketTo, hfail,
        List.get_eq_getElem, List.getElem_map]
  · intro hfail
    simp only [List.get_eq_getElem] at hfail
    constructor <;>
      simp [handleDiscoveryPacket, handleSessionPacket, hne, writePacketTo, hfail,
        List.get_eq_getElem, List.getElem_map]

/-- Witness for C5: three links with the middle one failing; the third
link still receives the frame. -/
theorem c5_witness :
    (handleDiscoveryPacket false
        [⟨['a'], false, []⟩, ⟨['b'], true, []⟩, ⟨['c'], false, []⟩] [7]).get
      ⟨2, by rw [handleDiscoveryPacket_length]; norm_num⟩ =
      ⟨['c'], false, WritePacket PacketTypeDiscovery [7]⟩ := by
  have h := (c5_fanout [⟨['a'], false, []⟩, ⟨['b'], true, []⟩, ⟨['c'], false, []⟩]
    [7] 2 (by norm_num)).2.2.1 rfl
  simpa using h.1

/-- Claim C6: after the upstream decode loop ends with the proxy still
open, a reconnect attempt is scheduled exactly 5 seconds later - never
sooner; every failed attempt schedules the next one 5 seconds after it,
indefinitely; the timer callback makes an attempt whenever a timer is
pending and the proxy is open; and once Close has set the closed flag,
scheduleReconnect is a no-op and the callback makes no further attempt. -/
theorem c6_reconnect (now t0 : Nat) (st : ReconnState) (b : Bool) (n : Nat) :
    (st.closed = false → (afterDisconnect now st).timer = some (now + 5)) ∧
    repeatFailures n ⟨false, some t0⟩ = ⟨false, some (t0 + 5 * n)⟩ ∧
    (st.closed = false → ∀ t, st.timer = some t →
      (fireReconnectTimer b st).2 = true) ∧
    (st.closed = true →
      scheduleReconnect now st = st ∧ (fireReconnectTimer b st).2 = false) := by
  refine ⟨?_, ?_, ?_, ?_⟩
  · intro h
    simp [afterDisconnect, scheduleReconnect, h]
  · induction n generalizing t0 with
    | zero => simp [repeatFailures]
    | succ n ihn =>
      have hstep : (fireReconnectTimer false ⟨false, some t0⟩).1 = ⟨false, some (t0 + 5)⟩ := by
        simp [fireReconnectTimer, scheduleReconnect]
      have harith : t0 + 5 + 5 * n = t0 + 5 * (n + 1) := by omega
      simp [repeatFailures, hstep, ihn, harith]
  · intro h t ht
    cases b <;> simp [fireReconnectTimer, ht, h, scheduleReconnect]
  · intro h
    constructor
    · simp [scheduleReconnect, h]
    · cases ht : st.timer <;> simp [fireReconnectTimer, ht, h]

/-- Witness for C6: a disconnect at time 100 schedules a retry for 105;
three straight failures starting from a timer armed for time 10 leave a
timer armed for 25; a fired timer on a closed proxy attempts nothing. -/
theorem c6_witness :
    (afterDisconnect 100 ⟨false, none⟩).timer = some 105 ∧
    repeatFailures 3 ⟨false, some 10⟩ = ⟨false, some 25⟩ ∧
    (fireReconnectTimer false ⟨true, some 10⟩).2 = false := by
  have h := c6_reconnect 100 10 ⟨false, none⟩ false 3
  have h2 := c6_reconnect 100 10 ⟨true, some 10⟩ false 3
  exact ⟨h.1 rfl, by simpa using h.2.1, (h2.2.2.2 rfl).2⟩

lemma splitAux_fst (c : Char) (s : List Char) :
    (splitAux c s).1 = s.takeWhile (fun x => x != c) := by
  induction s with
  | nil => rfl
  | cons x s ih =>
    by_cases h : x = c
    · subst h
      simp [splitAux, List.takeWhile_cons]
    · simp [splitAux, h, List.takeWhile_cons, ih]

lemma takeWhile_ne_of_not_mem (c : Char) (s : List Char) (h : c ∉ s) :
    s.takeWhile (fun x => x != c) = s := by
  induction s with
  | nil => rfl
  | cons x s ih =>
    have hx : x ≠ c := by
      intro hxc
      exact h (hxc ▸ List.mem_cons_self x s)
    have hs : c ∉ s := fun hm => h (List.mem_cons_of_mem x hm)
    simp [List.takeWhile_cons, hx, ih hs]

lemma isClientAllowed_iff (allowedIP clientIP : List Char) :
    isClientAllowed allowedIP clientIP = true ↔
      clientIP.takeWhile (fun x => x != ':') = allowedIP := by
  simp [isClientAllowed, splitAux_fst]

/-- Claim C10: `isClientAllowed` compares only the substring of the
remote IP string before its first colon with the configured allowed IP;
since the address handed in is already port-free, a colon-free (IPv4)
remote address is compared by full string equality, while an allowed IP
that itself contains a colon (any full IPv6 address) can never be matched
by any connection. -/
theorem c10_ip_colon_compare (allowedIP clientIP : List Char) :
    (isClientAllowed allowedIP clientIP = true ↔
      clientIP.takeWhile (fun x => x != ':') = allowedIP) ∧
    (':' ∉ clientIP →
      (isClientAllowed allowedIP clientIP = true ↔ clientIP = allowedIP)) ∧
    (':' ∈ allowedIP → isClientAllowed allowedIP clientIP = false) := by
  have hiff := isClientAllowed_iff allowedIP clientIP
  refine ⟨hiff, ?_, ?_⟩
  · intro hnm
    rw [hiff, takeWhile_ne_of_not_mem ':' clientIP hnm]
  · intro hmem
    cases hb : isClientAllowed allowedIP clientIP with
    | false => rfl
    | true =>
      have heq := hiff.mp hb
      have hmem2 : ':' ∈ clientIP.takeWhile (fun x => x != ':') := by
        rw [heq]; exact hmem
      have hc := List.mem_takeWhile_imp hmem2
      simp at hc

/-- Witness for C10: a colon-free address matches itself, and an
allowed IP containing a colon matches nothing. -/
theorem c10_witness :
    isClientAllowed ['a'] ['a'] = true ∧
    isClientAllowed [':'] ['x', ':'] = false := by
  refine ⟨?_, (c10_ip_colon_compare [':'] ['x', ':']).2.2 (by decide)⟩
  exact ((c10_ip_colon_compare ['a'] ['a']).2.1 (by decide)).mpr rfl

/-- Claim C4 (amended): an accepted connection is registered and its
decode loop started exactly when the substring of its source IP before
the first colon equals the configured allowed IP - full string equality
for colon-free IPv4 addresses; on a mismatch the connection is rejected
with the registry untouched and no decode loop (hence no application
data read); the claim as originally stated, with plain string equality
of the whole source IP, fails for IPv6 addresses. -/
theorem c4_admission (allowedIP clientIP remoteAddr : List Char) (st : ServerState) :
    ((acceptClient allowedIP st clientIP remoteAddr).2 = true ↔
      clientIP.takeWhile (fun x => x != ':') = allowedIP) ∧
    (isClientAllowed allowedIP clientIP = false →
      acceptClient allowedIP st clientIP remoteAddr = (st, false)) ∧
    (isClientAllowed allowedIP clientIP = true →
      (acceptClient allowedIP st clientIP remoteAddr).1.clients =
        remoteAddr :: st.clients ∧
      (acceptClient allowedIP st clientIP remoteAddr).2 = true) := by
  refine ⟨?_, ?_, ?_⟩
  · rw [← isClientAllowed_iff allowedIP clientIP]
    cases hb : isClientAllowed allowedIP clientIP <;> simp [acceptClient, hb]
  · intro hb
    simp [acceptClient, hb]
  · intro hb
    simp [acceptClient, hb]

/-- Witness for C4 (amended): a matching IPv4-style client is registered. -/
theorem c4_witness :
    (acceptClient ['a'] ⟨[]⟩ ['a'] ['a', ':', '1']).1.clients = [['a', ':', '1']] ∧
    (acceptClient ['b'] ⟨[]⟩ ['a'] ['a', ':', '1']) = (⟨[]⟩, false) := by
  have h1 := (c4_admission ['a'] ['a'] ['a', ':', '1'] ⟨[]⟩).2.2 (by decide)
  have h2 := (c4_admission ['b'] ['a'] ['a', ':', '1'] ⟨[]⟩).2.1 (by decide)
  exact ⟨h1.1, h2⟩

/-- Counterexample to C4 as stated: with the allowed IP configured as the
IPv6 address 2001:db8::1, a connection whose source IP is that very
string - string-equal to the allowed IP - is still rejected and never
registered, because only the substring before the first colon is
compared. -/
theorem c4_counterexample :
    isClientAllowed
        ['2', '0', '0', '1', ':', 'd', 'b', '8', ':', ':', '1']
        ['2', '0', '0', '1', ':', 'd', 'b', '8', ':', ':', '1'] = false ∧
    (acceptClient ['2', '0', '0', '1', ':', 'd', 'b', '8', ':', ':', '1'] ⟨[]⟩
        ['2', '0', '0', '1', ':', 'd', 'b', '8', ':', ':', '1']
        ['2', '0', '0', '1', ':', 'd', 'b', '8', ':', ':', '1']).2 = false ∧
    (acceptClient ['2', '0', '0', '1', ':', 'd', 'b', '8', ':', ':', '1'] ⟨[]⟩
        ['2', '0', '0', '1', ':', 'd', 'b', '8', ':', ':', '1']
        ['2', '0', '0', '1', ':', 'd', 'b', '8', ':', ':', '1']).1.clients = [] := by
  refine ⟨?_, ?_, ?_⟩ <;> decide

/-- Claim C8: a received byte sequence shorter than 20 bytes is dropped
by the receive loop before `handlePacket` runs, so no PPPoE header field
is accessed and nothing is forwarded; a sequence of at least 20 bytes
whose byte at offset 14 is not 0x11 is likewise dropped without
forwarding, with the header accesses of `handlePacket` in bounds by the
proof obligation its signature carries. -/
theorem c8_short_frames (pkt : List Nat) :
    (pkt.length < 20 → processFrame pkt = none) ∧
    (∀ h : 20 ≤ pkt.length, pkt.get ⟨14, by omega⟩ ≠ 0x11 → processFrame pkt = none) := by
  constructor
  · intro h
    simp [processFrame, h]
  · intro h hne
    have h2 : ¬pkt.length < 20 := by omega
    simp only [List.get_eq_getElem] at hne
    simp [processFrame, h2, handlePacket, hne]

/-- Witness for C8: a 1-byte frame and a 20-byte all-zero frame are both
dropped. -/
theorem c8_witness :
    processFrame [0] = none ∧ processFrame (List.replicate 20 0) = none :=
  ⟨(c8_short_frames [0]).1 (by norm_num),
   (c8_short_frames (List.replicate 20 0)).2 (by simp) (by decide)⟩

lemma xorRangeAux_length (s : List Nat) :
    ∀ start len, (xorRangeAux s start len).length = s.length := by
  induction s with
  | nil => intro start len; cases start <;> cases len <;> rfl
  | cons b s ih =>
    intro start len
    cases start with
    | zero => cases len with
      | zero => rfl
      | succ l => simp [xorRangeAux, ih]
    | succ t => simp [xorRangeAux, ih]

lemma xorRangeAux_getD (s : List Nat) :
    ∀ start len i, i < s.length →
      (xorRangeAux s start len).getD i 0 =
        if start ≤ i ∧ i < start + len then s.getD i 0 ^^^ 0x42
        else s.getD i 0 := by
  induction s with
  | nil => intro start len i hi; simp at hi
  | cons b s ih =>
    intro start len i hi
    cases start with
    | zero =>
      cases len with
      | zero => simp [xorRangeAux]
      | succ l =>
        cases i with
        | zero => simp [xorRangeAux]
        | succ j =>
          have hj : j < s.length := by simpa using hi
          have := ih 0 l j hj
          simp only [xorRangeAux, List.getD_cons_succ, this]
          by_cases hc : j < l
          · rw [if_pos (by omega), if_pos (by omega)]
          · rw [if_neg (by omega), if_neg (by omega)]
    | succ t =>
      cases i with
      | zero =>
        simp [xorRangeAux, Nat.succ_le]
      | succ j =>
        have hj : j < s.length := by simpa using hi
        have := ih t len j hj
        simp only [xorRangeAux, List.getD_cons_succ, this]
        by_cases hc : t ≤ j ∧ j < t + len
        · rw [if_pos hc, if_pos (by omega)]
        · rw [if_neg hc, if_neg (by omega)]

lemma findHostUniqAux_bounds (pkt : List Nat) :
    ∀ fuel off start len, pkt.length - off ≤ fuel →
      findHostUniqAux pkt off = some (start, len) →
      off + 4 ≤ start ∧ start + len ≤ pkt.length := by
  intro fuel
  induction fuel with
  | zero =>
    intro off start len hf h
    rw [findHostUniqAux, dif_neg (by omega)] at h
    exact absurd h (by simp)
  | succ fuel ihf =>
    intro off start len hf h
    rw [findHostUniqAux] at h
    by_cases h4 : off + 4 ≤ pkt.length
    · rw [dif_pos h4] at h
      by_cases hEnd : pkt.getD off 0 * 256 + pkt.getD (off + 1) 0 = TagEndOfList
      · rw [if_pos hEnd] at h
        exact absurd h (by simp)
      · rw [if_neg hEnd] at h
        by_cases hv :
            off + 4 + (pkt.getD (off + 2) 0 * 256 + pkt.getD (off + 3) 0) ≤ pkt.length
        · rw [dif_pos hv] at h
          by_cases hHU : pkt.getD off 0 * 256 + pkt.getD (off + 1) 0 = TagHostUniq
          · rw [if_pos hHU] at h
            simp only [Option.some.injEq, Prod.mk.injEq] at h
            omega
          · rw [if_neg hHU] at h
            have hrec := ihf (off + 4 + (pkt.getD (off + 2) 0 * 256 + pkt.getD (off + 3) 0))
              start len (by omega) h
            omega
        · rw [dif_neg hv] at h
          exact absurd h (by simp)
    · rw [dif_neg h4] at h
      exact absurd h (by simp)

/-- The spec-modelled Tag Rewriter does what spec section 8 requires:
when the scan from offset 20 finds a HostUniq tag, every byte of that
tag's value is replaced by its XOR with 0x42 and every other byte of the
frame is unchanged, the frame length included; when no HostUniq tag is
found the frame is unchanged. -/
lemma rewriteHostUniq_getD (pkt : List Nat) (start len : Nat) :
    (findHostUniq pkt = some (start, len) →
      (rewriteHostUniq pkt).length = pkt.length ∧
      (∀ i, start ≤ i → i < start + len →
        (rewriteHostUniq pkt).getD i 0 = pkt.getD i 0 ^^^ 0x42) ∧
      (∀ i, i < start ∨ start + len ≤ i →
        (rewriteHostUniq pkt).getD i 0 = pkt.getD i 0)) ∧
    (findHostUniq pkt = none → rewriteHostUniq pkt = pkt) := by
  constructor
  · intro hf
    have hfa : findHostUniqAux pkt 20 = some (start, len) := hf
    have hbounds := findHostUniqAux_bounds pkt (pkt.length - 20) 20 start len
      (by omega) hfa
    have hrw : rewriteHostUniq pkt = xorRangeAux pkt start len := by
      unfold rewriteHostUniq
      rw [hf]
    refine ⟨?_, ?_, ?_⟩
    · rw [hrw, xorRangeAux_length]
    · intro i hi1 hi2
      rw [hrw, xorRangeAux_getD pkt start len i (by omega), if_pos ⟨hi1, hi2⟩]
    · intro i hi
      by_cases hlt : i < pkt.length
      · rw [hrw, xorRangeAux_getD pkt start len i hlt, if_neg (by omega)]
      · rw [hrw]
        rw [List.getD_eq_default, List.getD_eq_default]
        · omega
        · rw [xorRangeAux_length]; omega
  · intro hf
    unfold rewriteHostUniq
    rw [hf]

/-- Claim C1: the claim (and spec sections 4.1-4.2 and 8) requires the
server-mode capture path to XOR every HostUniq value byte with 0x42
before handing a PADI frame to the forwarding callback, and TODO.md, the
README and the otherwise-unused `TagHostUniq` constant all present this
rewrite as implemented; but the forwarding path that exists in the source
(`processFrame` embedding discovery.go 67-122) hands the frame over
unchanged - no rewrite call exists.  On a concrete valid server-mode
PADI frame whose HostUniq value starts with byte 170 at offset 24, the
code forwards the frame with byte 24 still 170, whereas the rewrite the
claim describes (modelled from the spec as `rewriteHostUniq`) would make
it 170 XOR 0x42, a different value. -/
theorem c1_missing_rewrite :
    processFrame
        [0, 0, 0, 0, 0, 0, 0, 0, 0, 0, 0, 0, 0, 0,
         17, 9, 0, 0, 0, 6, 1, 3, 0, 2, 170, 187] =
      some
        [0, 0, 0, 0, 0, 0, 0, 0, 0, 0, 0, 0, 0, 0,
         17, 9, 0, 0, 0, 6, 1, 3, 0, 2, 170, 187] ∧
    findHostUniq
        [0, 0, 0, 0, 0, 0, 0, 0, 0, 0, 0, 0, 0, 0,
         17, 9, 0, 0, 0, 6, 1, 3, 0, 2, 170, 187] = some (24, 2) ∧
    (rewriteHostUniq
        [0, 0, 0, 0, 0, 0, 0, 0, 0, 0, 0, 0, 0, 0,
         17, 9, 0, 0, 0, 6, 1, 3, 0, 2, 170, 187]).getD 24 0 = 170 ^^^ 0x42 ∧
    ([0, 0, 0, 0, 0, 0, 0, 0, 0, 0, 0, 0, 0, 0,
      17, 9, 0, 0, 0, 6, 1, 3, 0, 2, 170, 187] : List Nat).getD 24 0 = 170 ∧
    (170 : Nat) ≠ 170 ^^^ 0x42 := by
  have hf : findHostUniq
      [0, 0, 0, 0, 0, 0, 0, 0, 0, 0, 0, 0, 0, 0,
       17, 9, 0, 0, 0, 6, 1, 3, 0, 2, 170, 187] = some (24, 2) := by
    rw [findHostUniq, findHostUniqAux]
    norm_num [TagEndOfList, TagHostUniq]
  have hrw : rewriteHostUniq
      [0, 0, 0, 0, 0, 0, 0, 0, 0, 0, 0, 0, 0, 0,
       17, 9, 0, 0, 0, 6, 1, 3, 0, 2, 170, 187] =
      xorRangeAux
        [0, 0, 0, 0, 0, 0, 0, 0, 0, 0, 0, 0, 0, 0,
         17, 9, 0, 0, 0, 6, 1, 3, 0, 2, 170, 187] 24 2 := by
    unfold rewriteHostUniq
    rw [hf]
  refine ⟨by decide, hf, ?_, by decide, by decide⟩
  rw [hrw]
  decide
